import Mathlib

/-
Shallow embedding of the phia-stack core pipeline:
  src/attribute_reasoner.py, src/smart_buy.py, src/ranking.py and
  src/.ipynb_checkpoints/taste_reasoner-checkpoint.py.

Numeric listing columns are modelled as rationals (pandas/numpy float
arithmetic idealised over ℚ); the taste modeler is modelled over ℝ
because it divides by an L2 norm, i.e. a square root.  Operations that
can raise in Python (numpy reductions over empty arrays, sklearn
MinMaxScaler over zero samples, the explicit ValueError in
compute_user_taste_vector) are modelled with Except, carrying the
message of the exception the library raises.
-/

namespace Phia

/-! ### Generic list helpers (positionally aligned pandas columns) -/

def zipWith3 (f : α → β → γ → δ) : List α → List β → List γ → List δ
  | a :: as, b :: bs, c :: cs => f a b c :: zipWith3 f as bs cs
  | _, _, _ => []

def zipWith4 (f : α → β → γ → δ → ε) : List α → List β → List γ → List δ → List ε
  | a :: as, b :: bs, c :: cs, d :: ds => f a b c d :: zipWith4 f as bs cs ds
  | _, _, _, _ => []

/-! ### numpy-style min and max reductions (defined on non-empty arrays) -/

def listMin : List ℚ → ℚ
  | [] => 0
  | a :: l => l.foldl min a

def listMax : List ℚ → ℚ
  | [] => 0
  | a :: l => l.foldl max a

/-! ### src/attribute_reasoner.py -/

/-- Python `str.lower()` (per-character fold, as used on the ASCII vocab). -/
def pyLower (s : String) : String := String.mk (s.toList.map Char.toLower)

/-- Python substring membership `needle in hay` on character lists. -/
def strIn (n : List Char) : List Char → Bool
  | [] => n.isEmpty
  | c :: t => n.isPrefixOf (c :: t) || strIn n t

/-- Python `token in text` as evaluated inside `_extract_first_match`. -/
def pyContains (hay needle : String) : Bool := strIn needle.toList hay.toList

/-- CATEGORY_WORDS, in declared order (order is significant: first match wins). -/
def CATEGORY_WORDS : List String :=
  ["boots", "boot", "coat", "jacket", "dress", "trousers", "pants",
   "jeans", "skirt", "top", "blouse", "shirt", "sweater", "hoodie"]

/-- First vocabulary entry, in declared order, that is a substring of the
lower-cased text; None when no entry matches. -/
def _extract_first_match (text : String) (vocab : List String) : Option String :=
  vocab.find? (fun token => pyContains (pyLower text) token)

/-- Python `raw.rstrip("s")`: removes EVERY trailing `s` character. -/
def pyRstripS (s : String) : String :=
  String.mk ((s.toList.reverse.dropWhile (fun c => c == 's')).reverse)

/-- Python `raw.endswith("s")`. -/
def pyEndsWithS (s : String) : Bool :=
  match s.toList.reverse with
  | [] => false
  | c :: _ => c == 's'

/-- extract_category from src/attribute_reasoner.py: first matching category
word, with `rstrip("s")` applied when the match ends in `s`. -/
def extract_category (text : String) : Option String :=
  match _extract_first_match text CATEGORY_WORDS with
  | none => none
  | some raw => if pyEndsWithS raw then some (pyRstripS raw) else some raw

/-! ### src/smart_buy.py -/

/-- One listing row as consumed by `_compute_component_scores`: the fields it
reads, with optional columns modelled as Option (missing handled by
`row.get(..., default)` / `or ""`). -/
structure SBRow where
  price : ℚ
  original_price : Option ℚ
  brand : Option String
  material : Option String
  condition_norm : Option String
deriving DecidableEq

def BRAND_STRENGTH : List (String × ℚ) :=
  [("Zara", 0.6), ("Banana Republic", 0.65), ("Everlane", 0.8), ("Unknown", 0.4)]

def MATERIAL_SCORE : List (String × ℚ) :=
  [("leather", 0.9), ("wool", 0.85), ("cotton", 0.7), ("cotton blend", 0.65),
   ("polyester", 0.4)]

def CONDITION_SCORE : List (String × ℚ) :=
  [("like new", 0.95), ("very good", 0.85), ("good", 0.7), ("fair", 0.5)]

/-- Python `dict.get(key, default)` over an association list. -/
def dictGet (tbl : List (String × ℚ)) (k : String) (dflt : ℚ) : ℚ :=
  match tbl.find? (fun p => p.1 == k) with
  | some p => p.2
  | none => dflt

/-- `_compute_discount_ratio` from src/smart_buy.py: 0 when original_price is
not positive (the None case arrives here as the 0.0 default of `row.get`),
otherwise the discount clamped into [0, 1]. -/
def _compute_discount_ratio (price original_price : ℚ) : ℚ :=
  if original_price ≤ 0 then 0
  else max 0 (min 1 ((original_price - price) / original_price))

structure CompScores where
  discount_ratio : ℚ
  brand_score : ℚ
  material_score : ℚ
  condition_score : ℚ
deriving DecidableEq

/-- `_compute_component_scores` from src/smart_buy.py. Brand lookup is
case-sensitive on the stripped string; material is lower-cased and stripped;
condition uses the `condition_norm` attribute with default 0.6 (a missing
value also takes the default, as `dict.get(None, 0.6)` does). -/
def _compute_component_scores (row : SBRow) : CompScores :=
  { discount_ratio :=
      _compute_discount_ratio row.price (row.original_price.getD 0)
    brand_score := dictGet BRAND_STRENGTH ((row.brand.getD ("")).trim) 0.5
    material_score := dictGet MATERIAL_SCORE ((pyLower (row.material.getD (""))).trim) 0.5
    condition_score :=
      match row.condition_norm with
      | some c => dictGet CONDITION_SCORE c 0.6
      | none => 0.6 }

/-- sklearn fitted attribute `scale_`: `(100 - 0) / data_range`, with
`_handle_zeros_in_scale` replacing a zero range by 1. -/
def scaler_scale (xs : List ℚ) : ℚ :=
  100 / (if listMax xs - listMin xs = 0 then 1 else listMax xs - listMin xs)

/-- sklearn fitted attribute `min_`: `feature_range[0] - data_min * scale_`. -/
def scaler_min (xs : List ℚ) : ℚ := 0 - listMin xs * scaler_scale xs

/-- sklearn `MinMaxScaler(feature_range=(0, 100)).fit_transform` on one
column: output `x * scale_ + min_` per row.  Fitting a zero-sample array
raises ValueError. -/
def minMaxScaler100 (xs : List ℚ) : Except String (List ℚ) :=
  match xs with
  | [] => .error ("Found array with 0 sample(s) while a minimum of 1 is required by MinMaxScaler.")
  | _ :: _ => .ok (xs.map (fun x => x * scaler_scale xs + scaler_min xs))

/-- One output row of `add_smart_buy_index`: the input row plus the appended
component, raw-index and scaled-index columns. -/
structure SBOut where
  row : SBRow
  comps : CompScores
  smart_buy_index_raw : ℚ
  smart_buy_index : ℚ
deriving DecidableEq

/-- `smart_buy_index_raw` of one row: the weighted component sum. -/
def rawIndex (w_disc w_brand w_mat w_cond : ℚ) (c : CompScores) : ℚ :=
  w_disc * c.discount_ratio + w_brand * c.brand_score +
    w_mat * c.material_score + w_cond * c.condition_score

/-- `add_smart_buy_index` from src/smart_buy.py: per-row component scores,
the weighted raw index, and the batch min-max rescale of the raw index into
[0, 100].  On an empty table the pandas/sklearn pipeline raises (the model
surfaces the sklearn zero-sample error). -/
def add_smart_buy_index (df : List SBRow) (w_disc w_brand w_mat w_cond : ℚ) :
    Except String (List SBOut) :=
  let comps := df.map _compute_component_scores
  let raws := comps.map (rawIndex w_disc w_brand w_mat w_cond)
  match minMaxScaler100 raws with
  | .error e => .error e
  | .ok scaled =>
    .ok (zipWith3
      (fun r c s => ⟨r, c, rawIndex w_disc w_brand w_mat w_cond c, s⟩)
      df comps scaled)

/-! ### src/ranking.py -/

/-- `_minmax_normalize` body on a non-empty array: all zeros when
`x_max <= x_min`, else `(x - x_min) / (x_max - x_min)`. -/
def minmaxCore (x : List ℚ) : List ℚ :=
  let xmin := listMin x
  let xmax := listMax x
  if xmax ≤ xmin then x.map (fun _ => 0)
  else x.map (fun v => (v - xmin) / (xmax - xmin))

/-- `_minmax_normalize` from src/ranking.py.  On an empty array, `x.min()`
raises numpy ValueError; the model surfaces that error. -/
def _minmax_normalize (x : List ℚ) : Except String (List ℚ) :=
  match x with
  | [] => .error ("zero-size array to reduction operation minimum which has no identity")
  | _ :: _ => .ok (minmaxCore x)

/-- One input row of the ranking functions: the two score columns that
`bias_aware_rank` reads (other listing columns are carried along unchanged
and are irrelevant to the claims). -/
structure RankRow where
  taste_score : ℚ
  smart_buy_index : ℚ
deriving DecidableEq

/-- Output row of `naive_rank`: the pandas row index plus the attached raw
`query_sim` column. -/
structure NaiveOut where
  idx : ℕ
  taste_score : ℚ
  smart_buy_index : ℚ
  query_sim : ℚ
deriving DecidableEq

/-- Output row of `bias_aware_rank`: the pandas row index plus the attached
normalized `query_sim` and `final_score` columns. -/
structure BiasOut where
  idx : ℕ
  taste_score : ℚ
  smart_buy_index : ℚ
  query_sim : ℚ
  final_score : ℚ
deriving DecidableEq

/-- Stable insertion into an ascending-sorted list (equal keys: the inserted
element, which comes from an earlier original position, stays first). -/
def insertAsc (key : α → ℚ) (a : α) : List α → List α
  | [] => [a]
  | b :: l => if key a ≤ key b then a :: b :: l else b :: insertAsc key a l

/-- Stable ascending sort by a rational key (the unique stable sorting
result, matching numpy argsort where it is stable). -/
def sortAsc (key : α → ℚ) : List α → List α
  | [] => []
  | a :: l => insertAsc key a (sortAsc key l)

/-- pandas `sort_values(by=key, ascending=False)` on a single column:
`nargsort` computes an ascending argsort and then REVERSES the index
array, so the descending output is the reverse of the ascending order
(numpy introsort is stable on small arrays, where it is insertion sort). -/
def sort_values_desc (key : α → ℚ) (l : List α) : List α := (sortAsc key l).reverse

/-- The scored table `df_out` built by `naive_rank` before sorting: original
rows (indexed by pandas position) with the raw query similarities attached. -/
def naiveScored (df : List RankRow) (q_sims : List ℚ) : List NaiveOut :=
  zipWith3 (fun i r s => ⟨i, r.taste_score, r.smart_buy_index, s⟩)
    (List.range df.length) df q_sims

/-- `naive_rank` from src/ranking.py: attach `query_sim`, sort descending by
it, take the head `top_k` rows.  The query similarities themselves come from
the external embedding model and are an input of the model. -/
def naive_rank (df : List RankRow) (q_sims : List ℚ) (top_k : ℕ) : List NaiveOut :=
  (sort_values_desc (fun r => r.query_sim) (naiveScored df q_sims)).take top_k

/-- The scored table `df_out` built by `bias_aware_rank` before sorting:
each row carries the batch-normalized query similarity and
`final_score = alpha * q_norm + beta * taste_norm + gamma * (smart_buy_index / 100)`. -/
def biasScored (df : List RankRow) (q_sims : List ℚ) (alpha beta gamma : ℚ) :
    List BiasOut :=
  zipWith4
    (fun i r a b =>
      ⟨i, r.taste_score, r.smart_buy_index, a,
        alpha * a + beta * b + gamma * (r.smart_buy_index / 100)⟩)
    (List.range df.length) df (minmaxCore q_sims)
    (minmaxCore (df.map (fun r => r.taste_score)))

/-- `bias_aware_rank` from src/ranking.py: min-max normalize the query
similarities and the taste scores (each raising on an empty batch), divide
`smart_buy_index` by 100, combine with the caller weights, sort descending by
`final_score`, take the head `top_k`. -/
def bias_aware_rank (df : List RankRow) (q_sims : List ℚ)
    (alpha beta gamma : ℚ) (top_k : ℕ) : Except String (List BiasOut) :=
  match _minmax_normalize q_sims, _minmax_normalize (df.map (fun r => r.taste_score)) with
  | .error e, _ => .error e
  | .ok _, .error e => .error e
  | .ok _, .ok _ =>
    .ok ((sort_values_desc (fun r => r.final_score)
      (biasScored df q_sims alpha beta gamma)).take top_k)

/-! ### src/.ipynb_checkpoints/taste_reasoner-checkpoint.py -/

/-- One listing row as read by `build_item_text` (missing fields are the
empty string). -/
structure ItemRow where
  title : String
  description : String
  brand : String
deriving DecidableEq

/-- `build_item_text` for one row: the f-string
`"{title} {description} Brand: {brand}"`. -/
def build_item_text (r : ItemRow) : String :=
  r.title ++ (" ") ++ r.description ++ (" Brand: ") ++ r.brand

/-- Process state for the embedding model: how many times a
SentenceTransformer has been constructed in this process. -/
structure EncState where
  loads : ℕ
deriving DecidableEq

/-- A constructed SentenceTransformer handle (identified by its model name
and by which load produced it). -/
structure ModelHandle where
  model_name : String
  load_id : ℕ
deriving DecidableEq

/-- `encode_items` from taste_reasoner: the body runs
`model = SentenceTransformer(model_name)` unconditionally, so every call
constructs a fresh model (the load counter increments); it then encodes
`build_item_text` of every row with the external embedding function and
returns the handle, the embeddings and the corpus text. -/
def encode_items (embed : String → List ℚ) (s : EncState) (model_name : String)
    (df : List ItemRow) : EncState × ModelHandle × List (List ℚ) × List String :=
  let texts := df.map build_item_text
  (⟨s.loads + 1⟩, ⟨model_name, s.loads⟩, texts.map embed, texts)

/-- Element-wise sum of two embedding vectors. -/
noncomputable def vadd (v w : List ℝ) : List ℝ := List.zipWith (fun a b => a + b) v w

/-- Scalar multiple of an embedding vector. -/
noncomputable def vsmul (c : ℝ) (v : List ℝ) : List ℝ := v.map (fun x => c * x)

/-- numpy `mean(axis=0)` over a non-empty stack of rows ([] on no rows). -/
noncomputable def vmean : List (List ℝ) → List ℝ
  | [] => []
  | v :: rest => vsmul (1 / ((rest.length : ℝ) + 1)) (rest.foldl vadd v)

/-- Squared L2 norm: the sum of squared entries. -/
noncomputable def normSq (v : List ℝ) : ℝ := (v.map (fun x => x * x)).sum

/-- `np.linalg.norm`: the square root of the sum of squares. -/
noncomputable def l2norm (v : List ℝ) : ℝ := Real.sqrt (normSq v)

/-- The boolean-mask selection `item_embeddings[df["item_id"].isin(liked_ids)]`:
embedding rows whose positionally aligned item_id occurs in liked_ids. -/
def selectLiked (item_embeddings : List (List ℝ)) (item_ids liked_ids : List ℤ) :
    List (List ℝ) :=
  (List.zip item_ids item_embeddings).filterMap
    (fun p => if p.1 ∈ liked_ids then some p.2 else none)

open Classical in
/-- `compute_user_taste_vector` from taste_reasoner: raise ValueError when the
liked mask selects nothing; otherwise the mean of the selected embeddings,
divided by its L2 norm unless that norm is exactly zero. -/
noncomputable def compute_user_taste_vector (item_embeddings : List (List ℝ))
    (item_ids liked_ids : List ℤ) : Except String (List ℝ) :=
  let sel := selectLiked item_embeddings item_ids liked_ids
  if sel.isEmpty then .error ("No liked_ids found in DataFrame.")
  else
    let vec := vmean sel
    let norm := l2norm vec
    if norm = 0 then .ok vec else .ok (vsmul (1 / norm) vec)

/-- Descending sortedness by a key: every earlier row's key is at least every
later row's key. -/
def SortedDescBy (key : α → ℚ) (l : List α) : Prop :=
  l.Pairwise (fun x y => key y ≤ key x)


/-- Default SBRow used only as the irrelevant `getD` fallback in proofs. -/
def dSBRow : SBRow := ⟨0, none, none, none, none⟩

/-- Default CompScores used only as the irrelevant `getD` fallback in proofs. -/
def dComp : CompScores := ⟨0, 0, 0, 0⟩

/-- Default SBOut used only as the irrelevant `getD` fallback in proofs. -/
def dSBOut : SBOut := ⟨dSBRow, dComp, 0, 0⟩

/-- Default RankRow used only as the irrelevant `getD` fallback in proofs. -/
def dRankRow : RankRow := ⟨0, 0⟩

/-- Default BiasOut used only as the irrelevant `getD` fallback in proofs. -/
def dBiasOut : BiasOut := ⟨0, 0, 0, 0, 0⟩

/-! ### Lemmas and claim theorems -/

theorem zipWith3_length (f : α → β → γ → δ) (as : List α) (bs : List β) (cs : List γ) :
    (zipWith3 f as bs cs).length = min as.length (min bs.length cs.length) := by
  induction as generalizing bs cs with
  | nil => simp [zipWith3]
  | cons a as ih =>
    cases bs with
    | nil => simp [zipWith3]
    | cons b bs =>
      cases cs with
      | nil => simp [zipWith3]
      | cons c cs =>
        simp only [zipWith3, List.length_cons, ih]
        omega

theorem zipWith4_length (f : α → β → γ → δ → ε)
    (as : List α) (bs : List β) (cs : List γ) (ds : List δ) :
    (zipWith4 f as bs cs ds).length
      = min (min as.length bs.length) (min cs.length ds.length) := by
  induction as generalizing bs cs ds with
  | nil => simp [zipWith4]
  | cons a as ih =>
    cases bs with
    | nil => simp [zipWith4]
    | cons b bs =>
      cases cs with
      | nil => simp [zipWith4]
      | cons c cs =>
        cases ds with
        | nil => simp [zipWith4]
        | cons d ds =>
          simp only [zipWith4, List.length_cons, ih]
          omega

theorem zipWith3_getD (f : α → β → γ → δ) (as : List α) (bs : List β) (cs : List γ)
    (j : ℕ) (da : α) (db : β) (dc : γ) (dd : δ)
    (ha : j < as.length) (hb : j < bs.length) (hc : j < cs.length) :
    (zipWith3 f as bs cs).getD j dd = f (as.getD j da) (bs.getD j db) (cs.getD j dc) := by
  induction as generalizing bs cs j with
  | nil => simp at ha
  | cons a as ih =>
    cases bs with
    | nil => simp at hb
    | cons b bs =>
      cases cs with
      | nil => simp at hc
      | cons c cs =>
        cases j with
        | zero => simp [zipWith3]
        | succ j =>
          simp only [zipWith3, List.getD_cons_succ]
          exact ih bs cs j (by simpa using ha) (by simpa using hb) (by simpa using hc)

theorem zipWith4_getD (f : α → β → γ → δ → ε)
    (as : List α) (bs : List β) (cs : List γ) (ds : List δ)
    (j : ℕ) (da : α) (db : β) (dc : γ) (dd : δ) (de : ε)
    (ha : j < as.length) (hb : j < bs.length) (hc : j < cs.length) (hd : j < ds.length) :
    (zipWith4 f as bs cs ds).getD j de
      = f (as.getD j da) (bs.getD j db) (cs.getD j dc) (ds.getD j dd) := by
  induction as generalizing bs cs ds j with
  | nil => simp at ha
  | cons a as ih =>
    cases bs with
    | nil => simp at hb
    | cons b bs =>
      cases cs with
      | nil => simp at hc
      | cons c cs =>
        cases ds with
        | nil => simp at hd
        | cons d ds =>
          cases j with
          | zero => simp [zipWith4]
          | succ j =>
            simp only [zipWith4, List.getD_cons_succ]
            exact ih bs cs ds j (by simpa using ha) (by simpa using hb)
              (by simpa using hc) (by simpa using hd)

theorem foldl_min_le_init (l : List ℚ) (a : ℚ) : l.foldl min a ≤ a := by
  induction l generalizing a with
  | nil => simp
  | cons b l ih =>
    simp only [List.foldl_cons]
    exact le_trans (ih (min a b)) (min_le_left a b)

theorem foldl_min_le_mem (l : List ℚ) (a x : ℚ) (hx : x ∈ l) : l.foldl min a ≤ x := by
  induction l generalizing a with
  | nil => simp at hx
  | cons b l ih =>
    simp only [List.foldl_cons]
    rcases List.mem_cons.mp hx with h | h
    · rw [h]
      exact le_trans (foldl_min_le_init l (min a b)) (min_le_right a b)
    · exact ih (min a b) h

theorem le_foldl_max_init (l : List ℚ) (a : ℚ) : a ≤ l.foldl max a := by
  induction l generalizing a with
  | nil => simp
  | cons b l ih =>
    simp only [List.foldl_cons]
    exact le_trans (le_max_left a b) (ih (max a b))

theorem le_foldl_max_mem (l : List ℚ) (a x : ℚ) (hx : x ∈ l) : x ≤ l.foldl max a := by
  induction l generalizing a with
  | nil => simp at hx
  | cons b l ih =>
    simp only [List.foldl_cons]
    rcases List.mem_cons.mp hx with h | h
    · rw [h]
      exact le_trans (le_max_right a b) (le_foldl_max_init l (max a b))
    · exact ih (max a b) h

theorem listMin_le (l : List ℚ) (x : ℚ) (hx : x ∈ l) : listMin l ≤ x := by
  cases l with
  | nil => simp at hx
  | cons a l =>
    rcases List.mem_cons.mp hx with h | h
    · exact h ▸ foldl_min_le_init l a
    · exact foldl_min_le_mem l a x h

theorem le_listMax (l : List ℚ) (x : ℚ) (hx : x ∈ l) : x ≤ listMax l := by
  cases l with
  | nil => simp at hx
  | cons a l =>
    rcases List.mem_cons.mp hx with h | h
    · exact h ▸ le_foldl_max_init l a
    · exact le_foldl_max_mem l a x h

theorem listMin_le_listMax (l : List ℚ) (h : l ≠ []) : listMin l ≤ listMax l := by
  cases l with
  | nil => exact absurd rfl h
  | cons a l =>
    exact le_trans (listMin_le (a :: l) a (List.mem_cons_self a l))
      (le_listMax (a :: l) a (List.mem_cons_self a l))

/-! ### Sorting lemmas -/

theorem insertAsc_perm (key : α → ℚ) (a : α) (l : List α) :
    (insertAsc key a l).Perm (a :: l) := by
  induction l with
  | nil => simp [insertAsc]
  | cons b l ih =>
    simp only [insertAsc]
    by_cases hab : key a ≤ key b
    · rw [if_pos hab]
    · rw [if_neg hab]
      exact (ih.cons b).trans (List.Perm.swap a b l)

theorem sortAsc_perm (key : α → ℚ) (l : List α) : (sortAsc key l).Perm l := by
  induction l with
  | nil => simp [sortAsc]
  | cons a l ih =>
    exact (insertAsc_perm key a (sortAsc key l)).trans (ih.cons a)

theorem mem_insertAsc (key : α → ℚ) (a x : α) (l : List α) :
    x ∈ insertAsc key a l ↔ x = a ∨ x ∈ l := by
  rw [(insertAsc_perm key a l).mem_iff]
  simp

theorem insertAsc_pairwise (key : α → ℚ) (a : α) (l : List α)
    (h : l.Pairwise (fun x y => key x ≤ key y)) :
    (insertAsc key a l).Pairwise (fun x y => key x ≤ key y) := by
  induction l with
  | nil => simp [insertAsc]
  | cons b l ih =>
    rcases List.pairwise_cons.mp h with ⟨hb, hl⟩
    simp only [insertAsc]
    by_cases hab : key a ≤ key b
    · rw [if_pos hab]
      refine List.pairwise_cons.mpr ⟨?_, h⟩
      intro x hx
      rcases List.mem_cons.mp hx with hxb | hxl
      · rw [hxb]; exact hab
      · exact le_trans hab (hb x hxl)
    · rw [if_neg hab]
      refine List.pairwise_cons.mpr ⟨?_, ih hl⟩
      intro x hx
      rcases (mem_insertAsc key a x l).mp hx with hxa | hxl
      · rw [hxa]; exact le_of_lt (lt_of_not_le hab)
      · exact hb x hxl

theorem sortAsc_pairwise (key : α → ℚ) (l : List α) :
    (sortAsc key l).Pairwise (fun x y => key x ≤ key y) := by
  induction l with
  | nil => simp [sortAsc]
  | cons a l ih => exact insertAsc_pairwise key a (sortAsc key l) ih

theorem insertAsc_filter (key : α → ℚ) (q : ℚ) (a : α) (l : List α) :
    (insertAsc key a l).filter (fun x => decide (key x = q))
      = if key a = q then a :: l.filter (fun x => decide (key x = q))
        else l.filter (fun x => decide (key x = q)) := by
  induction l with
  | nil =>
    simp only [insertAsc, List.filter]
    by_cases hq : key a = q
    · simp [hq]
    · simp [hq]
  | cons b l ih =>
    simp only [insertAsc]
    by_cases hab : key a ≤ key b
    · rw [if_pos hab]
      by_cases hq : key a = q
      · simp [List.filter_cons, hq]
      · simp [List.filter_cons, hq]
    · rw [if_neg hab]
      have hba : key b < key a := lt_of_not_le hab
      by_cases hbq : key b = q
      · have haq : ¬ key a = q := by
          intro haq
          rw [haq, ← hbq] at hba
          exact lt_irrefl (key b) hba
        simp [List.filter_cons, hbq, ih, haq]
      · by_cases haq : key a = q
        · simp [List.filter_cons, hbq, ih, haq]
        · simp [List.filter_cons, hbq, ih, haq]

theorem sortAsc_filter (key : α → ℚ) (q : ℚ) (l : List α) :
    (sortAsc key l).filter (fun x => decide (key x = q))
      = l.filter (fun x => decide (key x = q)) := by
  induction l with
  | nil => simp [sortAsc]
  | cons a l ih =>
    simp only [sortAsc]
    rw [insertAsc_filter]
    by_cases hq : key a = q
    · simp [List.filter_cons, hq, ih]
    · simp [List.filter_cons, hq, ih]

theorem sortAsc_length (key : α → ℚ) (l : List α) :
    (sortAsc key l).length = l.length :=
  (sortAsc_perm key l).length_eq

theorem sort_values_desc_sorted (key : α → ℚ) (l : List α) :
    SortedDescBy key (sort_values_desc key l) := by
  unfold SortedDescBy sort_values_desc
  exact (List.pairwise_reverse).mpr (sortAsc_pairwise key l)

theorem sort_values_desc_perm (key : α → ℚ) (l : List α) :
    (sort_values_desc key l).Perm l :=
  (List.reverse_perm (sortAsc key l)).trans (sortAsc_perm key l)

theorem sort_values_desc_filter (key : α → ℚ) (q : ℚ) (l : List α) :
    (sort_values_desc key l).filter (fun x => decide (key x = q))
      = (l.filter (fun x => decide (key x = q))).reverse := by
  unfold sort_values_desc
  rw [List.filter_reverse, sortAsc_filter]

/-! ### Supporting lemmas about the numeric kernels -/

theorem le_foldl_min (l : List ℚ) (a c : ℚ) (ha : c ≤ a) (hb : ∀ x ∈ l, c ≤ x) :
    c ≤ l.foldl min a := by
  induction l generalizing a with
  | nil => simpa using ha
  | cons b l ih =>
    simp only [List.foldl_cons]
    exact ih (min a b) (le_min ha (hb b (List.mem_cons_self b l)))
      (fun x hx => hb x (List.mem_cons_of_mem b hx))

theorem foldl_max_le (l : List ℚ) (a c : ℚ) (ha : a ≤ c) (hb : ∀ x ∈ l, x ≤ c) :
    l.foldl max a ≤ c := by
  induction l generalizing a with
  | nil => simpa using ha
  | cons b l ih =>
    simp only [List.foldl_cons]
    exact ih (max a b) (max_le ha (hb b (List.mem_cons_self b l)))
      (fun x hx => hb x (List.mem_cons_of_mem b hx))

theorem listMin_const (c : ℚ) (xs : List ℚ) (hne : xs ≠ []) (hc : ∀ a ∈ xs, a = c) :
    listMin xs = c := by
  cases xs with
  | nil => exact absurd rfl hne
  | cons a l =>
    have ha : a = c := hc a (List.mem_cons_self a l)
    refine le_antisymm ?_ ?_
    · rw [← ha]
      exact foldl_min_le_init l a
    · exact le_foldl_min l a c (le_of_eq ha.symm)
        (fun x hx => le_of_eq (hc x (List.mem_cons_of_mem a hx)).symm)

theorem listMax_const (c : ℚ) (xs : List ℚ) (hne : xs ≠ []) (hc : ∀ a ∈ xs, a = c) :
    listMax xs = c := by
  cases xs with
  | nil => exact absurd rfl hne
  | cons a l =>
    have ha : a = c := hc a (List.mem_cons_self a l)
    refine le_antisymm ?_ ?_
    · exact foldl_max_le l a c (le_of_eq ha)
        (fun x hx => le_of_eq (hc x (List.mem_cons_of_mem a hx)))
    · rw [← ha]
      exact le_foldl_max_init l a

theorem _minmax_normalize_ok (xs : List ℚ) (hne : xs ≠ []) :
    _minmax_normalize xs = .ok (minmaxCore xs) := by
  cases xs with
  | nil => exact absurd rfl hne
  | cons a l => rfl

theorem minMaxScaler100_ok (xs : List ℚ) (hne : xs ≠ []) :
    minMaxScaler100 xs = .ok (xs.map (fun x => x * scaler_scale xs + scaler_min xs)) := by
  cases xs with
  | nil => exact absurd rfl hne
  | cons a l => rfl

theorem minmaxCore_length (xs : List ℚ) : (minmaxCore xs).length = xs.length := by
  unfold minmaxCore
  by_cases h : listMax xs ≤ listMin xs
  · simp [h]
  · simp [h]

/-- Each rescaled value lies in [0, 100]: the raw value sits between the batch
min and max, and the fitted affine map sends that interval into [0, 100]. -/
theorem scaler_output_in_range (xs : List ℚ) (hne : xs ≠ []) (x : ℚ) (hx : x ∈ xs) :
    0 ≤ x * scaler_scale xs + scaler_min xs ∧ x * scaler_scale xs + scaler_min xs ≤ 100 := by
  have hmin : listMin xs ≤ x := listMin_le xs x hx
  have hmax : x ≤ listMax xs := le_listMax xs x hx
  have hmm : listMin xs ≤ listMax xs := listMin_le_listMax xs hne
  have hval : x * scaler_scale xs + scaler_min xs
      = (x - listMin xs) * scaler_scale xs := by
    unfold scaler_min
    ring
  by_cases hz : listMax xs - listMin xs = 0
  · have hxeq : x = listMin xs := le_antisymm (by linarith) hmin
    rw [hval, hxeq]
    norm_num
  · have hpos : 0 < listMax xs - listMin xs := lt_of_le_of_ne (by linarith) (Ne.symm hz)
    have hscale : scaler_scale xs = 100 / (listMax xs - listMin xs) := by
      unfold scaler_scale
      rw [if_neg hz]
    have hscale_pos : 0 < scaler_scale xs := by
      rw [hscale]
      positivity
    constructor
    · rw [hval]
      have h1 : 0 ≤ x - listMin xs := by linarith
      exact mul_nonneg h1 (le_of_lt hscale_pos)
    · rw [hval, hscale]
      have h2 : (x - listMin xs) * (100 / (listMax xs - listMin xs))
          ≤ (listMax xs - listMin xs) * (100 / (listMax xs - listMin xs)) := by
        apply mul_le_mul_of_nonneg_right (by linarith) (by positivity)
      have h3 : (listMax xs - listMin xs) * (100 / (listMax xs - listMin xs)) = 100 := by
        field_simp
      linarith

/-! ### Claim C2 (code bug): extract_category strips every trailing s -/

/-- C2: evaluating `extract_category` at the failing input.  The claim says a
text matching "dress" yields "dress" (one trailing `s` stripped, naive
singularization).  The code calls Python `rstrip("s")`, which removes EVERY
trailing `s`, so "dress" is mangled to "dre"; the "boots" example from the
spec behaves as documented. -/
theorem extract_category_rstrip_bug :
    extract_category ("Red Cotton Dress, size 8") = some ("dre")
      ∧ extract_category ("Red Leather Boots, size 8") = some ("boot") :=
  ⟨rfl, rfl⟩

/-! ### Claim C9 (corrected): the model is reloaded on every encode call -/

/-- C9 counterexample: two `encode_items` calls with the same model name from
a fresh process state construct the SentenceTransformer twice; the claim
(only the first call constructs the model) would give a load count of 1. -/
theorem encode_items_reloads :
    ((encode_items (fun _ => ([] : List ℚ))
        ((encode_items (fun _ => ([] : List ℚ)) ⟨0⟩ ("all-MiniLM-L6-v2") []).1)
        ("all-MiniLM-L6-v2") []).1).loads = 2 ∧ (2 : ℕ) ≠ 1 :=
  ⟨rfl, by decide⟩

/-- C9 amended: every `encode_items` call constructs a fresh model — the
process-wide load count increases by exactly one on each call, regardless of
the configuration; the handle is returned for reuse within the caller, but
there is no process-wide cache. -/
theorem encode_items_loads_every_call (embed : String → List ℚ) (s : EncState)
    (model_name : String) (df : List ItemRow) :
    ((encode_items embed s model_name df).1).loads = s.loads + 1 := rfl

/-! ### Claim C10 (corrected): empty tables are rejected, non-empty succeed -/

/-- C10 counterexample: on a zero-row table, `add_smart_buy_index` fails (the
sklearn scaler rejects zero samples; in the pandas pipeline the empty
`apply` result already raises a KeyError at the column assignment) and the
ranking min-max normalization fails (numpy `min` of an empty array raises). -/
theorem empty_table_fails :
    add_smart_buy_index [] (0.4) (0.2) (0.2) (0.2)
        = .error ("Found array with 0 sample(s) while a minimum of 1 is required by MinMaxScaler.")
      ∧ _minmax_normalize []
        = .error ("zero-size array to reduction operation minimum which has no identity") :=
  ⟨rfl, rfl⟩

/-- C10 amended: on any table with at least one row, `add_smart_buy_index`
and the ranking min-max normalization succeed and return a well-defined
result; only the zero-row case fails. -/
theorem nonempty_table_succeeds (df : List SBRow) (w1 w2 w3 w4 : ℚ) (xs : List ℚ)
    (hdf : df ≠ []) (hxs : xs ≠ []) :
    (∃ out, add_smart_buy_index df w1 w2 w3 w4 = .ok out)
      ∧ (∃ ys, _minmax_normalize xs = .ok ys) := by
  constructor
  · have hraws : (df.map _compute_component_scores).map (rawIndex w1 w2 w3 w4) ≠ [] := by
      cases df with
      | nil => exact absurd rfl hdf
      | cons a l => simp
    simp only [add_smart_buy_index]
    rw [minMaxScaler100_ok _ hraws]
    exact ⟨_, rfl⟩
  · rw [_minmax_normalize_ok xs hxs]
    exact ⟨_, rfl⟩

/-- C10 witness: the amended statement holds at a concrete one-row table. -/
theorem nonempty_table_succeeds_witness :
    (([⟨0, none, none, none, none⟩] : List SBRow) ≠ [])
      ∧ (([0] : List ℚ) ≠ [])
      ∧ ((∃ out, add_smart_buy_index [⟨0, none, none, none, none⟩] (0.4) (0.2) (0.2) (0.2) = .ok out)
          ∧ (∃ ys, _minmax_normalize [0] = .ok ys)) :=
  ⟨List.cons_ne_nil _ _, List.cons_ne_nil _ _,
    nonempty_table_succeeds _ (0.4) (0.2) (0.2) (0.2) _
      (List.cons_ne_nil _ _) (List.cons_ne_nil _ _)⟩

/-! ### Claim C6 (confirmed): constant arrays normalize to all zeros -/

/-- C6: min-max normalization of a non-empty constant array — both the
ranking fusion normalization and the smart-buy batch rescale — returns an
array of all zeros and is well-defined (an `ok` result: no NaN, no
infinity, no division-by-zero error). -/
theorem minmax_constant_all_zeros (xs : List ℚ) (c : ℚ)
    (hne : xs ≠ []) (hc : ∀ a ∈ xs, a = c) :
    _minmax_normalize xs = .ok (List.replicate xs.length 0)
      ∧ minMaxScaler100 xs = .ok (List.replicate xs.length 0) := by
  have hmin : listMin xs = c := listMin_const c xs hne hc
  have hmax : listMax xs = c := listMax_const c xs hne hc
  constructor
  · rw [_minmax_normalize_ok xs hne]
    unfold minmaxCore
    rw [hmin, hmax, if_pos (le_refl c)]
    congr 1
    exact List.map_const' xs 0
  · rw [minMaxScaler100_ok xs hne]
    have hscale : scaler_scale xs = 100 := by
      unfold scaler_scale
      rw [hmax, hmin]
      simp
    have hminv : scaler_min xs = 0 - c * 100 := by
      unfold scaler_min
      rw [hmin, hscale]
    congr 1
    have hz : ∀ a ∈ xs, a * scaler_scale xs + scaler_min xs = 0 := by
      intro a ha
      rw [hc a ha, hscale, hminv]
      ring
    rw [List.map_congr_left hz]
    exact List.map_const' xs 0

/-- C6 witness: the constant two-row batch [5, 5] normalizes to [0, 0] in
both kernels. -/
theorem minmax_constant_all_zeros_witness :
    (([5, 5] : List ℚ) ≠ []) ∧ (∀ a ∈ ([5, 5] : List ℚ), a = 5)
      ∧ (_minmax_normalize [5, 5] = .ok (List.replicate ([5, 5] : List ℚ).length 0)
          ∧ minMaxScaler100 [5, 5] = .ok (List.replicate ([5, 5] : List ℚ).length 0)) :=
  ⟨List.cons_ne_nil _ _, by decide,
    minmax_constant_all_zeros [5, 5] 5 (List.cons_ne_nil _ _) (by decide)⟩

/-! ### Claim C8 (confirmed): discount ratio definition and clamping -/

/-- C8: for every listing row, the computed discount_ratio equals
`(original_price - price) / original_price` clamped into [0, 1] when
original_price is a positive number, and equals 0 when original_price is
missing, zero, or negative; anomalous prices are coerced by the clamp rather
than raising. -/
theorem discount_ratio_spec (row : SBRow) :
    (_compute_component_scores row).discount_ratio
      = match row.original_price with
        | none => 0
        | some op => if 0 < op then max 0 (min 1 ((op - row.price) / op)) else 0 := by
  cases h : row.original_price with
  | none =>
    simp [_compute_component_scores, _compute_discount_ratio, h]
  | some op =>
    simp only [_compute_component_scores, h, Option.getD_some]
    unfold _compute_discount_ratio
    by_cases hop : op ≤ 0
    · rw [if_pos hop, if_neg (not_lt.mpr hop)]
    · rw [if_neg hop, if_pos (lt_of_not_le hop)]

/-! ### Claim C7 (confirmed): smart_buy_index lies in [0, 100] -/

/-- C7: for every non-empty listings table and every weight configuration,
`add_smart_buy_index` succeeds and every produced smart_buy_index lies in the
closed interval [0, 100]. -/
theorem smart_buy_index_in_0_100 (df : List SBRow) (w1 w2 w3 w4 : ℚ)
    (hne : df ≠ []) :
    ∃ out, add_smart_buy_index df w1 w2 w3 w4 = .ok out
      ∧ ∀ r ∈ out, 0 ≤ r.smart_buy_index ∧ r.smart_buy_index ≤ 100 := by
  have hraws_ne : (df.map _compute_component_scores).map (rawIndex w1 w2 w3 w4) ≠ [] := by
    cases df with
    | nil => exact absurd rfl hne
    | cons a l => simp
  simp only [add_smart_buy_index]
  rw [minMaxScaler100_ok _ hraws_ne]
  refine ⟨_, rfl, ?_⟩
  intro r hr
  rcases List.mem_iff_getElem.mp hr with ⟨j, hj, hrj⟩
  have hlen : (zipWith3
      (fun r c s => (⟨r, c, rawIndex w1 w2 w3 w4 c, s⟩ : SBOut))
      df (df.map _compute_component_scores)
      (((df.map _compute_component_scores).map (rawIndex w1 w2 w3 w4)).map
        (fun x => x * scaler_scale ((df.map _compute_component_scores).map (rawIndex w1 w2 w3 w4))
          + scaler_min ((df.map _compute_component_scores).map (rawIndex w1 w2 w3 w4))))).length
      = df.length := by
    rw [zipWith3_length]
    simp
  have hjd : j < df.length := by
    rw [hlen] at hj
    exact hj
  have hjc : j < (df.map _compute_component_scores).length := by
    simpa using hjd
  have hjr : j < ((df.map _compute_component_scores).map (rawIndex w1 w2 w3 w4)).length := by
    simpa using hjd
  have hjs : j < (((df.map _compute_component_scores).map (rawIndex w1 w2 w3 w4)).map
      (fun x => x * scaler_scale ((df.map _compute_component_scores).map (rawIndex w1 w2 w3 w4))
        + scaler_min ((df.map _compute_component_scores).map (rawIndex w1 w2 w3 w4)))).length := by
    simpa using hjd
  have hget := zipWith3_getD
    (fun r c s => (⟨r, c, rawIndex w1 w2 w3 w4 c, s⟩ : SBOut))
    df (df.map _compute_component_scores)
    (((df.map _compute_component_scores).map (rawIndex w1 w2 w3 w4)).map
      (fun x => x * scaler_scale ((df.map _compute_component_scores).map (rawIndex w1 w2 w3 w4))
        + scaler_min ((df.map _compute_component_scores).map (rawIndex w1 w2 w3 w4))))
    j dSBRow dComp 0 dSBOut hjd hjc hjs
  have hr_eq : r = (zipWith3
      (fun r c s => (⟨r, c, rawIndex w1 w2 w3 w4 c, s⟩ : SBOut))
      df (df.map _compute_component_scores)
      (((df.map _compute_component_scores).map (rawIndex w1 w2 w3 w4)).map
        (fun x => x * scaler_scale ((df.map _compute_component_scores).map (rawIndex w1 w2 w3 w4))
          + scaler_min ((df.map _compute_component_scores).map (rawIndex w1 w2 w3 w4))))).getD j dSBOut := by
    rw [List.getD_eq_getElem _ _ hj, hrj]
  rw [hr_eq, hget]
  have hsbi : ((((df.map _compute_component_scores).map (rawIndex w1 w2 w3 w4)).map
      (fun x => x * scaler_scale ((df.map _compute_component_scores).map (rawIndex w1 w2 w3 w4))
        + scaler_min ((df.map _compute_component_scores).map (rawIndex w1 w2 w3 w4)))).getD j 0)
      = (((df.map _compute_component_scores).map (rawIndex w1 w2 w3 w4)).getD j 0)
          * scaler_scale ((df.map _compute_component_scores).map (rawIndex w1 w2 w3 w4))
          + scaler_min ((df.map _compute_component_scores).map (rawIndex w1 w2 w3 w4)) := by
    rw [List.getD_eq_getElem _ _ hjs, List.getD_eq_getElem _ _ hjr, List.getElem_map]
  have hmem : (((df.map _compute_component_scores).map (rawIndex w1 w2 w3 w4)).getD j 0)
      ∈ ((df.map _compute_component_scores).map (rawIndex w1 w2 w3 w4)) := by
    rw [List.getD_eq_getElem _ _ hjr]
    exact List.getElem_mem hjr
  have hb := scaler_output_in_range
    ((df.map _compute_component_scores).map (rawIndex w1 w2 w3 w4)) hraws_ne _ hmem
  simpa only [hsbi] using hb

/-- C7 witness: the bound holds at a concrete one-row table with the default
weights. -/
theorem smart_buy_index_in_0_100_witness :
    (([⟨40, some 100, some ("Everlane"), some ("leather"), some ("like new")⟩] : List SBRow) ≠ [])
      ∧ ∃ out, add_smart_buy_index
          [⟨40, some 100, some ("Everlane"), some ("leather"), some ("like new")⟩]
          (0.4) (0.2) (0.2) (0.2) = .ok out
        ∧ ∀ r ∈ out, 0 ≤ r.smart_buy_index ∧ r.smart_buy_index ≤ 100 :=
  ⟨List.cons_ne_nil _ _,
    smart_buy_index_in_0_100 _ (0.4) (0.2) (0.2) (0.2) (List.cons_ne_nil _ _)⟩

/-! ### Taste modeler lemmas -/

theorem normSq_nonneg (v : List ℝ) : 0 ≤ normSq v := by
  unfold normSq
  apply List.sum_nonneg
  intro x hx
  rcases List.mem_map.mp hx with ⟨a, _, rfl⟩
  exact mul_self_nonneg a

theorem normSq_vsmul (c : ℝ) (v : List ℝ) :
    normSq (vsmul c v) = c ^ 2 * normSq v := by
  unfold normSq vsmul
  rw [List.map_map]
  have h1 : ((fun x => x * x) ∘ fun x => c * x) = fun x => c ^ 2 * (x * x) := by
    funext x
    simp only [Function.comp_apply]
    ring
  rw [h1]
  exact List.sum_map_mul_left v (fun x => x * x) (c ^ 2)

/-! ### Claim C5 (confirmed): the liked-selection precondition error -/

/-- C5: `compute_user_taste_vector` raises the "no matching liked items"
error exactly when no identifier of the listings table occurs in the liked
list; with at least one overlap it never raises this error. -/
theorem taste_vector_error_iff (emb : List (List ℝ)) (ids liked : List ℤ)
    (hlen : ids.length = emb.length) :
    compute_user_taste_vector emb ids liked = .error ("No liked_ids found in DataFrame.")
      ↔ ∀ i ∈ ids, i ∉ liked := by
  cases hsel : (selectLiked emb ids liked).isEmpty with
  | true =>
    have hnil : selectLiked emb ids liked = [] := by
      cases h : selectLiked emb ids liked with
      | nil => rfl
      | cons a l =>
        rw [h] at hsel
        exact absurd hsel (by simp)
    have hmatch : compute_user_taste_vector emb ids liked
        = .error ("No liked_ids found in DataFrame.") := by
      simp only [compute_user_taste_vector, hsel, if_true]
    rw [hmatch]
    have hall := (List.filterMap_eq_nil_iff).mp hnil
    constructor
    · intro _ i hi hmem
      rcases List.mem_iff_getElem.mp hi with ⟨j, hjlen, hji⟩
      have hjz : j < (List.zip ids emb).length := by
        rw [List.length_zip]
        omega
      have hpair := hall ((List.zip ids emb)[j]) (List.getElem_mem hjz)
      rw [List.getElem_zip] at hpair
      simp only at hpair
      rw [hji] at hpair
      simp [hmem] at hpair
    · intro _
      rfl
  | false =>
    have hmatch : compute_user_taste_vector emb ids liked
        = (if l2norm (vmean (selectLiked emb ids liked)) = 0
            then .ok (vmean (selectLiked emb ids liked))
            else .ok (vsmul (1 / l2norm (vmean (selectLiked emb ids liked)))
              (vmean (selectLiked emb ids liked)))) := by
      simp only [compute_user_taste_vector, hsel, Bool.false_eq_true, if_false]
    rw [hmatch]
    constructor
    · intro h
      exfalso
      by_cases hn : l2norm (vmean (selectLiked emb ids liked)) = 0
      · rw [if_pos hn] at h
        exact Except.noConfusion h
      · rw [if_neg hn] at h
        exact Except.noConfusion h
    · intro h
      exfalso
      have hne : selectLiked emb ids liked ≠ [] := by
        intro hde
        rw [hde] at hsel
        exact Bool.noConfusion hsel
      unfold selectLiked at hne
      rw [Ne, List.filterMap_eq_nil_iff] at hne
      push_neg at hne
      rcases hne with ⟨p, hp, hpne⟩
      by_cases hm : p.1 ∈ liked
      · exact h p.1 (List.of_mem_zip hp).1 hm
      · rw [if_neg hm] at hpne
        exact hpne rfl

/-- C5 witness: disjoint liked set over a two-row table raises the error. -/
theorem taste_vector_error_iff_witness :
    (([1, 2] : List ℤ).length = ([[1], [0]] : List (List ℝ)).length)
      ∧ (compute_user_taste_vector [[1], [0]] [1, 2] [5]
            = .error ("No liked_ids found in DataFrame.")
          ↔ ∀ i ∈ ([1, 2] : List ℤ), i ∉ ([5] : List ℤ)) :=
  ⟨rfl, taste_vector_error_iff _ _ _ rfl⟩

/-! ### Claim C4 (confirmed): the taste vector is the renormalized mean -/

/-- C4: with a non-empty liked selection, `compute_user_taste_vector` returns
the element-wise mean of the selected embeddings rescaled by the reciprocal
of its L2 norm — a unit vector — except that a mean of norm exactly zero is
returned unnormalized. -/
theorem taste_vector_spec (emb : List (List ℝ)) (ids liked : List ℤ)
    (hne : selectLiked emb ids liked ≠ []) :
    (l2norm (vmean (selectLiked emb ids liked)) = 0 →
        compute_user_taste_vector emb ids liked = .ok (vmean (selectLiked emb ids liked)))
    ∧ (l2norm (vmean (selectLiked emb ids liked)) ≠ 0 →
        compute_user_taste_vector emb ids liked
          = .ok (vsmul (1 / l2norm (vmean (selectLiked emb ids liked)))
              (vmean (selectLiked emb ids liked)))
        ∧ l2norm (vsmul (1 / l2norm (vmean (selectLiked emb ids liked)))
              (vmean (selectLiked emb ids liked))) = 1) := by
  have hBoolne : (selectLiked emb ids liked).isEmpty = false := by
    cases h : selectLiked emb ids liked with
    | nil => exact absurd h hne
    | cons a l => rfl
  constructor
  · intro h0
    simp only [compute_user_taste_vector, hBoolne, Bool.false_eq_true, if_false]
    rw [if_pos h0]
  · intro hnz
    constructor
    · simp only [compute_user_taste_vector, hBoolne, Bool.false_eq_true, if_false]
      rw [if_neg hnz]
    · have hS0 : 0 ≤ normSq (vmean (selectLiked emb ids liked)) :=
        normSq_nonneg (vmean (selectLiked emb ids liked))
      have hSne : normSq (vmean (selectLiked emb ids liked)) ≠ 0 := by
        intro h
        apply hnz
        unfold l2norm
        rw [h, Real.sqrt_zero]
      have hsqr : (l2norm (vmean (selectLiked emb ids liked))) ^ 2
          = normSq (vmean (selectLiked emb ids liked)) := by
        unfold l2norm
        exact Real.sq_sqrt hS0
      have hone : normSq (vsmul (1 / l2norm (vmean (selectLiked emb ids liked)))
          (vmean (selectLiked emb ids liked))) = 1 := by
        rw [normSq_vsmul, div_pow, one_pow, hsqr]
        field_simp
      have hfin : l2norm (vsmul (1 / l2norm (vmean (selectLiked emb ids liked)))
          (vmean (selectLiked emb ids liked)))
          = Real.sqrt (normSq (vsmul (1 / l2norm (vmean (selectLiked emb ids liked)))
              (vmean (selectLiked emb ids liked)))) := rfl
      rw [hfin, hone, Real.sqrt_one]

/-- C4 witness: a single liked embedding [1, 0] yields itself as the taste
vector, already of unit norm. -/
theorem taste_vector_spec_witness :
    (selectLiked [[1, 0], [0, 1]] [1, 2] [1] ≠ [])
      ∧ ((l2norm (vmean (selectLiked [[1, 0], [0, 1]] [1, 2] [1])) = 0 →
            compute_user_taste_vector [[1, 0], [0, 1]] [1, 2] [1]
              = .ok (vmean (selectLiked [[1, 0], [0, 1]] [1, 2] [1])))
          ∧ (l2norm (vmean (selectLiked [[1, 0], [0, 1]] [1, 2] [1])) ≠ 0 →
              compute_user_taste_vector [[1, 0], [0, 1]] [1, 2] [1]
                = .ok (vsmul (1 / l2norm (vmean (selectLiked [[1, 0], [0, 1]] [1, 2] [1])))
                    (vmean (selectLiked [[1, 0], [0, 1]] [1, 2] [1])))
              ∧ l2norm (vsmul (1 / l2norm (vmean (selectLiked [[1, 0], [0, 1]] [1, 2] [1])))
                    (vmean (selectLiked [[1, 0], [0, 1]] [1, 2] [1]))) = 1)) := by
  have hsel : selectLiked [[1, 0], [0, 1]] [1, 2] [1] ≠ [] := by
    simp [selectLiked]
  exact ⟨hsel, taste_vector_spec _ _ _ hsel⟩

/-! ### Claim C3 (corrected): equal sort keys come out in REVERSED order -/

/-- C3 counterexample: two listings with equal query similarity (3 and 3) are
returned by `naive_rank` with pandas row indices [1, 0] — the reverse of
their original relative order [0, 1] — because `sort_values(ascending=False)`
reverses the ascending argsort.  The claim predicts output order [0, 1]. -/
theorem rank_tie_not_original_order :
    (naive_rank [⟨1, 0⟩, ⟨2, 0⟩] [3, 3] 2).map (fun r => r.idx) = [1, 0]
      ∧ ([1, 0] : List ℕ) ≠ [0, 1] :=
  ⟨by decide, by decide⟩

/-- C3 amended: in both ranking modes, listings with equal sort keys appear
in the output in REVERSED original relative order: restricted to any fixed
key value `q`, the output is an order-preserving sublist of the reverse of
the pre-sort scored table restricted to `q`. -/
theorem rank_tie_reversed (df : List RankRow) (q_sims : List ℚ)
    (alpha beta gamma : ℚ) (top_k : ℕ) (q : ℚ)
    (hne : df ≠ []) (hlen : q_sims.length = df.length) :
    ((naive_rank df q_sims top_k).filter (fun r => decide (r.query_sim = q))).Sublist
        (((naiveScored df q_sims).filter (fun r => decide (r.query_sim = q))).reverse)
      ∧ ∃ out, bias_aware_rank df q_sims alpha beta gamma top_k = .ok out
          ∧ (out.filter (fun r => decide (r.final_score = q))).Sublist
              (((biasScored df q_sims alpha beta gamma).filter
                (fun r => decide (r.final_score = q))).reverse) := by
  constructor
  · unfold naive_rank
    have h1 := List.Sublist.filter (fun r => decide (r.query_sim = q))
      (List.take_sublist top_k
        (sort_values_desc (fun r => r.query_sim) (naiveScored df q_sims)))
    rw [sort_values_desc_filter (fun r => r.query_sim) q (naiveScored df q_sims)] at h1
    exact h1
  · have hq : q_sims ≠ [] := by
      intro h
      apply hne
      rw [h] at hlen
      exact List.eq_nil_of_length_eq_zero hlen.symm
    have ht : df.map (fun r => r.taste_score) ≠ [] := by
      cases df with
      | nil => exact absurd rfl hne
      | cons a l => simp
    refine ⟨(sort_values_desc (fun r => r.final_score)
        (biasScored df q_sims alpha beta gamma)).take top_k, ?_, ?_⟩
    · simp only [bias_aware_rank, _minmax_normalize_ok _ hq, _minmax_normalize_ok _ ht]
    · have h1 := List.Sublist.filter (fun r => decide (r.final_score = q))
        (List.take_sublist top_k
          (sort_values_desc (fun r => r.final_score) (biasScored df q_sims alpha beta gamma)))
      rw [sort_values_desc_filter (fun r => r.final_score) q
        (biasScored df q_sims alpha beta gamma)] at h1
      exact h1

/-- C3 amended witness: the reversed-tie property at a concrete two-row
table with tied query similarities. -/
theorem rank_tie_reversed_witness :
    (([⟨1, 0⟩, ⟨2, 0⟩] : List RankRow) ≠ [])
      ∧ (([3, 3] : List ℚ).length = ([⟨1, 0⟩, ⟨2, 0⟩] : List RankRow).length)
      ∧ (((naive_rank [⟨1, 0⟩, ⟨2, 0⟩] [3, 3] 2).filter
            (fun r => decide (r.query_sim = 3))).Sublist
            (((naiveScored [⟨1, 0⟩, ⟨2, 0⟩] [3, 3]).filter
              (fun r => decide (r.query_sim = 3))).reverse)
          ∧ ∃ out, bias_aware_rank [⟨1, 0⟩, ⟨2, 0⟩] [3, 3] 1 1 1 2 = .ok out
              ∧ (out.filter (fun r => decide (r.final_score = 3))).Sublist
                  (((biasScored [⟨1, 0⟩, ⟨2, 0⟩] [3, 3] 1 1 1).filter
                    (fun r => decide (r.final_score = 3))).reverse)) :=
  ⟨List.cons_ne_nil _ _, rfl,
    rank_tie_reversed _ _ 1 1 1 2 3 (List.cons_ne_nil _ _) rfl⟩

/-! ### Claim C1 (confirmed): the bias-aware final score and top-K order -/

/-- C1: in bias-aware mode, for every listings table and weights, the call
succeeds on a non-empty aligned batch and returns the top-K rows ordered
descending by final score, where row j of the scored table carries
`query_sim = (minmax-normalized query similarity) j` and
`final_score = alpha * query_sim_norm j + beta * taste_norm j
+ gamma * (smart_buy_index j / 100)`; the output is a size-min(K, n)
selection whose scores dominate every row left out. -/
theorem bias_aware_rank_spec (df : List RankRow) (q_sims : List ℚ)
    (alpha beta gamma : ℚ) (top_k : ℕ)
    (hne : df ≠ []) (hlen : q_sims.length = df.length) :
    ∃ out rest,
      bias_aware_rank df q_sims alpha beta gamma top_k = .ok out
      ∧ out.length = min top_k df.length
      ∧ SortedDescBy (fun r => r.final_score) out
      ∧ (out ++ rest).Perm (biasScored df q_sims alpha beta gamma)
      ∧ (∀ a ∈ out, ∀ b ∈ rest, b.final_score ≤ a.final_score)
      ∧ (∀ j, j < df.length →
          (biasScored df q_sims alpha beta gamma).getD j dBiasOut
            = ⟨j, (df.getD j dRankRow).taste_score, (df.getD j dRankRow).smart_buy_index,
                (minmaxCore q_sims).getD j 0,
                alpha * (minmaxCore q_sims).getD j 0
                  + beta * (minmaxCore (df.map (fun r => r.taste_score))).getD j 0
                  + gamma * ((df.getD j dRankRow).smart_buy_index / 100)⟩) := by
  have hq : q_sims ≠ [] := by
    intro h
    apply hne
    rw [h] at hlen
    exact List.eq_nil_of_length_eq_zero hlen.symm
  have ht : df.map (fun r => r.taste_score) ≠ [] := by
    cases df with
    | nil => exact absurd rfl hne
    | cons a l => simp
  have hSlen : (biasScored df q_sims alpha beta gamma).length = df.length := by
    unfold biasScored
    rw [zipWith4_length]
    simp [minmaxCore_length, hlen]
  have hsortlen : (sort_values_desc (fun r => r.final_score)
      (biasScored df q_sims alpha beta gamma)).length
      = (biasScored df q_sims alpha beta gamma).length := by
    unfold sort_values_desc
    rw [List.length_reverse, sortAsc_length]
  refine ⟨(sort_values_desc (fun r => r.final_score)
      (biasScored df q_sims alpha beta gamma)).take top_k,
    (sort_values_desc (fun r => r.final_score)
      (biasScored df q_sims alpha beta gamma)).drop top_k, ?_, ?_, ?_, ?_, ?_, ?_⟩
  · simp only [bias_aware_rank, _minmax_normalize_ok _ hq, _minmax_normalize_ok _ ht]
  · rw [List.length_take, hsortlen, hSlen]
  · have hp2 := sort_values_desc_sorted (fun r : BiasOut => r.final_score)
      (biasScored df q_sims alpha beta gamma)
    unfold SortedDescBy at hp2 ⊢
    exact List.Pairwise.sublist (List.take_sublist _ _) hp2
  · rw [List.take_append_drop]
    exact sort_values_desc_perm (fun r => r.final_score)
      (biasScored df q_sims alpha beta gamma)
  · have hp := sort_values_desc_sorted (fun r => r.final_score)
      (biasScored df q_sims alpha beta gamma)
    unfold SortedDescBy at hp
    rw [← List.take_append_drop top_k (sort_values_desc (fun r => r.final_score)
      (biasScored df q_sims alpha beta gamma))] at hp
    exact (List.pairwise_append.mp hp).2.2
  · intro j hj
    unfold biasScored
    have h1 : j < (List.range df.length).length := by simpa using hj
    have h3 : j < (minmaxCore q_sims).length := by
      rw [minmaxCore_length, hlen]
      exact hj
    have h4 : j < (minmaxCore (df.map (fun r => r.taste_score))).length := by
      rw [minmaxCore_length]
      simpa using hj
    rw [zipWith4_getD _ _ _ _ _ j 0 dRankRow 0 0 dBiasOut h1 hj h3 h4]
    rw [List.getD_eq_getElem _ _ h1, List.getElem_range]

/-- C1 witness: the specification instantiated at a concrete two-row batch
with the default fusion weights and K = 1. -/
theorem bias_aware_rank_spec_witness :
    (([⟨1, 0⟩, ⟨2, 50⟩] : List RankRow) ≠ [])
      ∧ (([3, 4] : List ℚ).length = ([⟨1, 0⟩, ⟨2, 50⟩] : List RankRow).length)
      ∧ ∃ out rest,
          bias_aware_rank [⟨1, 0⟩, ⟨2, 50⟩] [3, 4] (0.4) (0.3) (0.3) 1 = .ok out
          ∧ out.length = min 1 ([⟨1, 0⟩, ⟨2, 50⟩] : List RankRow).length
          ∧ SortedDescBy (fun r => r.final_score) out
          ∧ (out ++ rest).Perm (biasScored [⟨1, 0⟩, ⟨2, 50⟩] [3, 4] (0.4) (0.3) (0.3))
          ∧ (∀ a ∈ out, ∀ b ∈ rest, b.final_score ≤ a.final_score)
          ∧ (∀ j, j < ([⟨1, 0⟩, ⟨2, 50⟩] : List RankRow).length →
              (biasScored [⟨1, 0⟩, ⟨2, 50⟩] [3, 4] (0.4) (0.3) (0.3)).getD j dBiasOut
                = ⟨j, (([⟨1, 0⟩, ⟨2, 50⟩] : List RankRow).getD j dRankRow).taste_score,
                    (([⟨1, 0⟩, ⟨2, 50⟩] : List RankRow).getD j dRankRow).smart_buy_index,
                    (minmaxCore [3, 4]).getD j 0,
                    (0.4) * (minmaxCore [3, 4]).getD j 0
                      + (0.3) * (minmaxCore (([⟨1, 0⟩, ⟨2, 50⟩] : List RankRow).map
                          (fun r => r.taste_score))).getD j 0
                      + (0.3) * ((([⟨1, 0⟩, ⟨2, 50⟩] : List RankRow).getD j dRankRow).smart_buy_index
                          / 100)⟩) :=
  ⟨List.cons_ne_nil _ _, rfl,
    bias_aware_rank_spec _ _ (0.4) (0.3) (0.3) 1 (List.cons_ne_nil _ _) rfl⟩

end Phia

